import Mathlib

/-!
Verification of the funkhunt TUI core: a shallow embedding of the
application state machine (`src/tui/state.rs`), the event router
(`src/tui/events.rs`), the scanner (`src/scanner.rs`) and the book
metadata formatter (`src/book.rs`), together with theorems settling the
specified properties.

Filesystem interaction is modelled by explicit oracles: a `DirFs`
function maps a directory path to the result of `std::fs::read_dir`
(`none` when the directory cannot be read, `some raws` with the list of
entries the iterator yields, each carrying the outcome of its
`metadata()` call), and the scanner receives the result of the `walkdir`
traversal directly. Paths are Unix-style strings.
-/

namespace Funkhunt

/-- `Book` from `src/book.rs`: display name plus filesystem path. -/
structure Book where
  name : String
  path : String
deriving DecidableEq

/-- `DirEntry` from `src/tui/state.rs`: one row of the file browser. -/
structure DirEntry where
  name : String
  path : String
  is_dir : Bool
deriving DecidableEq

/-- `FileBrowser` from `src/tui/state.rs`. -/
structure FileBrowser where
  current_path : String
  entries : List DirEntry
  selected_index : Nat
deriving DecidableEq

/-- `UiMode` from `src/tui/state.rs`. -/
inductive UiMode
  | Normal
  | AddingFolder
deriving DecidableEq

/-- `Book` list ordering state, `TuiState` from `src/tui/state.rs`. -/
structure TuiState where
  books : List Book
  selected_index : Nat
  should_quit : Bool
  scan_paths : List String
  mode : UiMode
  browser : FileBrowser
deriving DecidableEq

/-- `AppAction` from `src/tui/state.rs`. -/
inductive AppAction
  | AddFolder (p : String)
deriving DecidableEq

/-- An externally visible side effect a handler performs in place (the
`book.open()` call in `handle_normal_mode`), recorded so the router's
effect discipline can be stated. -/
inductive Effect
  | openBook (b : Book)
deriving DecidableEq

/-- The crossterm `KeyCode` variants the router inspects, plus a few
representatives of the ignored remainder. -/
inductive KeyCode
  | char (c : Char)
  | up
  | down
  | left
  | right
  | enter
  | esc
  | backspace
  | tab
deriving DecidableEq

/-- The crossterm `KeyEvent`; the handlers only ever read `.code`. -/
structure KeyEvent where
  code : KeyCode
deriving DecidableEq

/-- One entry yielded by `std::fs::read_dir`: its file name, its path,
and the result of `entry.metadata()` (`none` when the call fails,
`some b` when it succeeds with `is_dir() = b`). -/
structure RawEntry where
  name : String
  path : String
  meta : Option Bool
deriving DecidableEq

/-- Oracle for `std::fs::read_dir`: `none` models a read failure. -/
abbrev DirFs := String → Option (List RawEntry)

/-- `name.starts_with('.')` — the hidden-entry test of `load_entries`. -/
def isHidden (s : String) : Bool :=
  match s.data with
  | [] => false
  | c :: _ => c = '.'

/-- The per-entry body of the `load_entries` loop: skip entries whose
`metadata()` failed, skip hidden names, keep directories. -/
def keepEntry (r : RawEntry) : Option DirEntry :=
  match r.meta with
  | none => none
  | some isDir =>
    if isHidden r.name then none
    else if isDir then some ⟨r.name, r.path, true⟩
    else none

/-- Lexicographic less-or-equal on character lists: the order
`String::cmp` induces on UTF-8 strings (byte order and code-point order
coincide on UTF-8). -/
def charsLe : List Char → List Char → Bool
  | [], _ => true
  | _ :: _, [] => false
  | a :: as, b :: bs =>
    if a < b then true
    else if b < a then false
    else charsLe as bs

/-- `a.cmp(&b) != Ordering::Greater` for Rust strings. -/
def strLe (a b : String) : Bool :=
  charsLe a.data b.data

/-- Ordered insertion used to realise `sort_by(|a, b| a.name.cmp(&b.name))`. -/
def insertEntry (e : DirEntry) : List DirEntry → List DirEntry
  | [] => [e]
  | f :: fs => if strLe e.name f.name then e :: f :: fs else f :: insertEntry e fs

/-- Stable sort of browser entries by name ascending, as `load_entries`
performs with `sort_by` over `String::cmp` (byte order coincides with
code-point order on UTF-8). -/
def sortEntries : List DirEntry → List DirEntry
  | [] => []
  | e :: es => insertEntry e (sortEntries es)

/-- `FileBrowser::load_entries`: clear entries, reset the cursor, read
the directory (silently keeping the empty list on failure), keep
non-hidden directories, sort by name. -/
def FileBrowser.load_entries (fs : DirFs) (b : FileBrowser) : FileBrowser :=
  match fs b.current_path with
  | none => { b with entries := [], selected_index := 0 }
  | some raws =>
    { b with entries := sortEntries (raws.filterMap keepEntry), selected_index := 0 }

/-- `FileBrowser::move_up`: decrement the cursor unless already at 0. -/
def FileBrowser.move_up (b : FileBrowser) : FileBrowser :=
  { b with
    selected_index :=
      if 0 < b.selected_index then b.selected_index - 1 else b.selected_index }

/-- `FileBrowser::move_down`: increment the cursor while strictly below
`entries.len().saturating_sub(1)` (Nat subtraction is saturating). -/
def FileBrowser.move_down (b : FileBrowser) : FileBrowser :=
  { b with
    selected_index :=
      if b.selected_index < b.entries.length - 1 then b.selected_index + 1
      else b.selected_index }

/-- Model of Rust `Path::parent` on Unix-style path strings: strip the
final component; `none` for the root `"/"` and the empty path. -/
def parentPath (p : String) : Option String :=
  if p = "" ∨ p = "/" then none
  else
    match p.data.reverse.dropWhile (fun c => c ≠ '/') with
    | [] => some ""
    | '/' :: rest =>
      if rest.isEmpty then some "/" else some (String.mk rest.reverse)
    | _ :: _ => none

/-- `FileBrowser::enter_selected`: descend into the selected entry when
it exists and is a directory, reloading; otherwise do nothing. -/
def FileBrowser.enter_selected (fs : DirFs) (b : FileBrowser) : FileBrowser :=
  match b.entries[b.selected_index]? with
  | some e =>
    if e.is_dir then FileBrowser.load_entries fs { b with current_path := e.path }
    else b
  | none => b

/-- `FileBrowser::go_up`: move to the parent directory when one exists,
reloading; otherwise do nothing. -/
def FileBrowser.go_up (fs : DirFs) (b : FileBrowser) : FileBrowser :=
  match parentPath b.current_path with
  | some par => FileBrowser.load_entries fs { b with current_path := par }
  | none => b

/-- `TuiState::selected_book`: safe indexed lookup into `books`. -/
def TuiState.selected_book (s : TuiState) : Option Book :=
  s.books[s.selected_index]?

/-- `TuiState::move_selection_up`. -/
def TuiState.move_selection_up (s : TuiState) : TuiState :=
  { s with
    selected_index :=
      if 0 < s.selected_index then s.selected_index - 1 else s.selected_index }

/-- `TuiState::move_selection_down`. -/
def TuiState.move_selection_down (s : TuiState) : TuiState :=
  { s with
    selected_index :=
      if s.selected_index < s.books.length - 1 then s.selected_index + 1
      else s.selected_index }

/-- What one call to the router produces: the updated state, the
returned `Option<AppAction>`, and the side effects the handler executed
in place. -/
structure RouterResult where
  state : TuiState
  action : Option AppAction
  effects : List Effect
deriving DecidableEq

/-- `handle_normal_mode` from `src/tui/events.rs`. The `Enter` arm calls
`book.open()` directly (recorded as an `Effect`) and still returns
`None`. -/
def handle_normal_mode (fs : DirFs) (k : KeyEvent) (s : TuiState) : RouterResult :=
  match k.code with
  | KeyCode.char c =>
    if c = 'q' then ⟨{ s with should_quit := true }, none, []⟩
    else if c = 'a' then
      ⟨{ s with mode := UiMode.AddingFolder,
                browser := FileBrowser.load_entries fs s.browser }, none, []⟩
    else ⟨s, none, []⟩
  | KeyCode.up => ⟨s.move_selection_up, none, []⟩
  | KeyCode.down => ⟨s.move_selection_down, none, []⟩
  | KeyCode.enter =>
    match s.selected_book with
    | some book => ⟨s, none, [Effect.openBook book]⟩
    | none => ⟨s, none, []⟩
  | _ => ⟨s, none, []⟩

/-- `handle_adding_folder_mode` from `src/tui/events.rs`. -/
def handle_adding_folder_mode (fs : DirFs) (k : KeyEvent) (s : TuiState) : RouterResult :=
  match k.code with
  | KeyCode.up => ⟨{ s with browser := s.browser.move_up }, none, []⟩
  | KeyCode.down => ⟨{ s with browser := s.browser.move_down }, none, []⟩
  | KeyCode.enter =>
    ⟨{ s with mode := UiMode.Normal },
      some (AppAction.AddFolder s.browser.current_path), []⟩
  | KeyCode.right =>
    ⟨{ s with browser := FileBrowser.enter_selected fs s.browser }, none, []⟩
  | KeyCode.left =>
    ⟨{ s with browser := FileBrowser.go_up fs s.browser }, none, []⟩
  | KeyCode.char c =>
    if c = 'l' then
      ⟨{ s with browser := FileBrowser.enter_selected fs s.browser }, none, []⟩
    else if c = 'h' then
      ⟨{ s with browser := FileBrowser.go_up fs s.browser }, none, []⟩
    else ⟨s, none, []⟩
  | KeyCode.esc => ⟨{ s with mode := UiMode.Normal }, none, []⟩
  | _ => ⟨s, none, []⟩

/-- `handle_key_event` from `src/tui/events.rs`: dispatch on the mode. -/
def handle_key_event (fs : DirFs) (k : KeyEvent) (s : TuiState) : RouterResult :=
  match s.mode with
  | UiMode.Normal => handle_normal_mode fs k s
  | UiMode.AddingFolder => handle_adding_folder_mode fs k s

/-- One entry yielded by the `walkdir` traversal in `scan_epubs` (after
`filter_map(|entry| entry.ok())` has dropped the erroneous ones): its
path, plus whether the filesystem object is a regular file — a fact the
traversal knows but the code never consults. -/
structure WalkEntry where
  path : String
  is_file : Bool
deriving DecidableEq

/-- Model of Rust `Path::file_name` on Unix-style path strings: the
component after the last `/`, `none` when that component is empty. -/
def fileName (p : String) : Option String :=
  match (p.data.reverse.takeWhile (fun c => c ≠ '/')).reverse with
  | [] => none
  | c :: cs => some (String.mk (c :: cs))

/-- Model of Rust `Path::extension` applied to a file name: the portion
after the last `.`, `none` when there is no `.` or the only `.` starts
the name. -/
def extOf (name : String) : Option String :=
  match name.data.reverse.findIdx? (fun c => c = '.') with
  | none => none
  | some i =>
    if i + 1 = name.data.length then none
    else some (String.mk ((name.data.reverse.take i).reverse))

/-- ASCII lowercasing of one character, as `eq_ignore_ascii_case` uses. -/
def toLowerAscii (c : Char) : Char :=
  if 'A' ≤ c ∧ c ≤ 'Z' then Char.ofNat (c.toNat + 32) else c

/-- Rust `str::eq_ignore_ascii_case`. -/
def eqIgnoreAsciiCase (a b : String) : Bool :=
  a.data.map toLowerAscii == b.data.map toLowerAscii

/-- The extension filter of `scan_epubs`:
`path.extension().and_then(to_str).map(eq_ignore_ascii_case "epub")`. -/
def hasEpubExt (p : String) : Bool :=
  match fileName p with
  | none => false
  | some n =>
    match extOf n with
    | none => false
    | some e => eqIgnoreAsciiCase e "epub"

/-- The book constructed from one walk entry in `scan_epubs`:
`file_name` as the display name, defaulting to "Unknown". -/
def bookOfEntry (e : WalkEntry) : Book :=
  Book.mk ((fileName e.path).getD "Unknown") e.path

/-- `scan_epubs` from `src/scanner.rs`. The argument is the outcome of
the directory validation plus traversal: `none` when
`!path.exists() || !path.is_dir()`, otherwise the list of entries the
`WalkDir` iterator yields (errors already dropped, as `filter_map` does). -/
def scan_epubs (walk : Option (List WalkEntry)) : List Book :=
  match walk with
  | none => []
  | some entries =>
    (entries.filter (fun e => hasEpubExt e.path)).map bookOfEntry

/-- The scanner as the spec words it, for comparison with `scan_epubs`:
only FILES whose extension case-insensitively equals "epub" are
returned. Written from the spec sentence, not from the source. -/
def scanSpecFilesOnly (walk : Option (List WalkEntry)) : List Book :=
  match walk with
  | none => []
  | some entries =>
    (entries.filter (fun e => e.is_file && hasEpubExt e.path)).map bookOfEntry

/-- `Book::get_metadata` from `src/book.rs`. The argument models the
outcome of `std::fs::metadata(&self.path)`: `none` on failure, `some
len` on success with `len()` bytes. -/
def Book.get_metadata (b : Book) (stat : Option Nat) : String :=
  match stat with
  | some len =>
    "Title: " ++ b.name ++ "\n\nPath: " ++ b.path ++ "\n\nSize: " ++
      toString (len / 1024) ++ " KB"
  | none => "Error reading metadata"

/-- A navigation input for the cursor-bounds invariant: one up or down
keypress. -/
inductive NavEvent
  | up
  | down
deriving DecidableEq

/-- Apply one navigation event to the file browser
(`FileBrowser::move_up` / `move_down`). -/
def browserNav (e : NavEvent) (b : FileBrowser) : FileBrowser :=
  match e with
  | NavEvent.up => b.move_up
  | NavEvent.down => b.move_down

/-- Apply one navigation event to the catalogue selection
(`TuiState::move_selection_up` / `move_selection_down`). -/
def stateNav (e : NavEvent) (s : TuiState) : TuiState :=
  match e with
  | NavEvent.up => s.move_selection_up
  | NavEvent.down => s.move_selection_down

/-- The in-bounds property of a cursor over a list of length `len`:
strictly below the length when the list is non-empty, pinned to 0 when
it is empty. -/
def idxInv (i len : Nat) : Prop :=
  if len = 0 then i = 0 else i < len

instance (i len : Nat) : Decidable (idxInv i len) := by
  unfold idxInv
  infer_instance

/-! ### Order lemmas for the entry sort -/

theorem charsLe_total (as bs : List Char) :
    charsLe as bs = true ∨ charsLe bs as = true := by
  induction as generalizing bs with
  | nil => left; rfl
  | cons a as ih =>
    cases bs with
    | nil => right; rfl
    | cons b bs =>
      by_cases hab : a < b
      · left; simp [charsLe, hab]
      · by_cases hba : b < a
        · right; simp [charsLe, hba]
        · rcases ih bs with h | h
          · left; simp [charsLe, hab, hba, h]
          · right; simp [charsLe, hab, hba, h]

theorem charsLe_trans (as bs cs : List Char) (h1 : charsLe as bs = true)
    (h2 : charsLe bs cs = true) : charsLe as cs = true := by
  induction as generalizing bs cs with
  | nil => rfl
  | cons a as ih =>
    cases bs with
    | nil => simp [charsLe] at h1
    | cons b bs =>
      cases cs with
      | nil => simp [charsLe] at h2
      | cons c cs =>
        by_cases hab : a < b
        · by_cases hbc : b < c
          · simp [charsLe, lt_trans hab hbc]
          · by_cases hcb : c < b
            · simp [charsLe, hbc, hcb] at h2
            · have hbceq : b = c := le_antisymm (le_of_not_lt hcb) (le_of_not_lt hbc)
              subst hbceq
              simp [charsLe, hab]
        · by_cases hba : b < a
          · simp [charsLe, hab, hba] at h1
          · have habeq : a = b := le_antisymm (le_of_not_lt hba) (le_of_not_lt hab)
            subst habeq
            simp only [charsLe, if_neg (lt_irrefl a)] at h1
            by_cases hac : a < c
            · simp [charsLe, hac]
            · by_cases hca : c < a
              · simp [charsLe, hac, hca] at h2
              · simp only [charsLe, if_neg hac, if_neg hca] at h2 ⊢
                exact ih bs cs h1 h2

theorem strLe_total (a b : String) : strLe a b = true ∨ strLe b a = true :=
  charsLe_total a.data b.data

theorem strLe_trans (a b c : String) (h1 : strLe a b = true)
    (h2 : strLe b c = true) : strLe a c = true :=
  charsLe_trans a.data b.data c.data h1 h2

/-- The sortedness relation of the browser listing: names ascending in
the embedded `String::cmp` order. -/
def nameLe (x y : DirEntry) : Prop :=
  strLe x.name y.name = true

instance (x y : DirEntry) : Decidable (nameLe x y) := by
  unfold nameLe
  infer_instance

/-! ### Insertion-sort lemmas -/

theorem insertEntry_perm (e : DirEntry) (l : List DirEntry) :
    List.Perm (insertEntry e l) (e :: l) := by
  induction l with
  | nil => exact List.Perm.refl _
  | cons f fs ih =>
    unfold insertEntry
    split
    · exact List.Perm.refl _
    · exact (List.Perm.cons f ih).trans (List.Perm.swap e f fs)

theorem mem_insertEntry (x e : DirEntry) (l : List DirEntry) :
    x ∈ insertEntry e l ↔ x = e ∨ x ∈ l := by
  rw [(insertEntry_perm e l).mem_iff, List.mem_cons]

theorem pairwise_insertEntry (e : DirEntry) (l : List DirEntry)
    (h : l.Pairwise nameLe) : (insertEntry e l).Pairwise nameLe := by
  induction l with
  | nil => simp [insertEntry, List.pairwise_singleton]
  | cons f fs ih =>
    rcases List.pairwise_cons.mp h with ⟨hf, hfs⟩
    unfold insertEntry
    split
    · rename_i hef
      refine List.pairwise_cons.mpr ⟨?_, h⟩
      intro x hx
      rcases List.mem_cons.mp hx with hxf | hxfs
      · subst hxf; exact hef
      · exact strLe_trans _ _ _ hef (hf x hxfs)
    · rename_i hef
      have hfe : nameLe f e := by
        rcases strLe_total e.name f.name with ht | ht
        · exact absurd ht hef
        · exact ht
      refine List.pairwise_cons.mpr ⟨?_, ih hfs⟩
      intro x hx
      rcases (mem_insertEntry x e fs).mp hx with hxe | hxfs
      · subst hxe; exact hfe
      · exact hf x hxfs

theorem sortEntries_perm (l : List DirEntry) : List.Perm (sortEntries l) l := by
  induction l with
  | nil => exact List.Perm.refl _
  | cons e es ih =>
    exact (insertEntry_perm e (sortEntries es)).trans (List.Perm.cons e ih)

theorem sortEntries_pairwise (l : List DirEntry) :
    (sortEntries l).Pairwise nameLe := by
  induction l with
  | nil => exact List.Pairwise.nil
  | cons e es ih => exact pairwise_insertEntry e (sortEntries es) ih

/-! ### `load_entries` facts -/

theorem keepEntry_eq_some (r : RawEntry) (e : DirEntry) :
    keepEntry r = some e ↔
      r.meta = some true ∧ isHidden r.name = false ∧
        e = DirEntry.mk r.name r.path true := by
  unfold keepEntry
  cases hm : r.meta with
  | none => simp
  | some isDir =>
    cases isDir with
    | false => by_cases hh : isHidden r.name <;> simp [hh]
    | true =>
      by_cases hh : isHidden r.name <;> simp [hh, eq_comm]

theorem load_entries_selected_index (fs : DirFs) (b : FileBrowser) :
    (FileBrowser.load_entries fs b).selected_index = 0 := by
  unfold FileBrowser.load_entries
  cases fs b.current_path <;> rfl

theorem load_entries_current_path (fs : DirFs) (b : FileBrowser) :
    (FileBrowser.load_entries fs b).current_path = b.current_path := by
  unfold FileBrowser.load_entries
  cases fs b.current_path <;> rfl

/-! ### Cursor-bounds step lemmas -/

theorem idxInv_up (i len : Nat) (h : idxInv i len) :
    idxInv (if 0 < i then i - 1 else i) len := by
  unfold idxInv at h ⊢
  split_ifs at h ⊢ <;> omega

theorem idxInv_down (i len : Nat) (h : idxInv i len) :
    idxInv (if i < len - 1 then i + 1 else i) len := by
  unfold idxInv at h ⊢
  split_ifs at h ⊢ <;> omega

theorem browserNav_inv (e : NavEvent) (b : FileBrowser)
    (h : idxInv b.selected_index b.entries.length) :
    idxInv (browserNav e b).selected_index (browserNav e b).entries.length := by
  cases e
  · exact idxInv_up _ _ h
  · exact idxInv_down _ _ h

theorem stateNav_inv (e : NavEvent) (s : TuiState)
    (h : idxInv s.selected_index s.books.length) :
    idxInv (stateNav e s).selected_index (stateNav e s).books.length := by
  cases e
  · exact idxInv_up _ _ h
  · exact idxInv_down _ _ h

theorem navBrowserRun_inv (evs : List NavEvent) (b : FileBrowser)
    (h : idxInv b.selected_index b.entries.length) :
    idxInv (evs.foldl (fun br e => browserNav e br) b).selected_index
      (evs.foldl (fun br e => browserNav e br) b).entries.length := by
  induction evs generalizing b with
  | nil => exact h
  | cons e es ih => exact ih _ (browserNav_inv e b h)

theorem navStateRun_inv (evs : List NavEvent) (s : TuiState)
    (h : idxInv s.selected_index s.books.length) :
    idxInv (evs.foldl (fun st e => stateNav e st) s).selected_index
      (evs.foldl (fun st e => stateNav e st) s).books.length := by
  induction evs generalizing s with
  | nil => exact h
  | cons e es ih => exact ih _ (stateNav_inv e s h)

/-! ### Handler-level lemmas -/

theorem handle_normal_mode_action (fs : DirFs) (k : KeyEvent) (s : TuiState) :
    (handle_normal_mode fs k s).action = none := by
  obtain ⟨code⟩ := k
  cases code <;> try rfl
  case char c =>
    by_cases h1 : c = 'q' <;> by_cases h2 : c = 'a' <;>
      simp [handle_normal_mode, h1, h2]
  case enter =>
    cases hb : s.selected_book <;> simp [handle_normal_mode, hb]

theorem handle_normal_mode_effects (fs : DirFs) (k : KeyEvent) (s : TuiState) :
    (handle_normal_mode fs k s).effects = []
    ∨ (k.code = KeyCode.enter ∧ ∃ bk, s.selected_book = some bk
        ∧ (handle_normal_mode fs k s).effects = [Effect.openBook bk]) := by
  obtain ⟨code⟩ := k
  cases code
  case char c =>
    left
    by_cases h1 : c = 'q' <;> by_cases h2 : c = 'a' <;>
      simp [handle_normal_mode, h1, h2]
  case enter =>
    cases hb : s.selected_book with
    | none => left; simp [handle_normal_mode, hb]
    | some bk => right; exact ⟨rfl, bk, rfl, by simp [handle_normal_mode, hb]⟩
  all_goals left; rfl

theorem handle_adding_folder_mode_action (fs : DirFs) (k : KeyEvent) (s : TuiState) :
    (handle_adding_folder_mode fs k s).action =
      if k.code = KeyCode.enter then
        some (AppAction.AddFolder s.browser.current_path)
      else none := by
  obtain ⟨code⟩ := k
  cases code <;> try rfl
  case char c =>
    by_cases h1 : c = 'l' <;> by_cases h2 : c = 'h' <;>
      simp [handle_adding_folder_mode, h1, h2]

theorem handle_adding_folder_mode_effects (fs : DirFs) (k : KeyEvent) (s : TuiState) :
    (handle_adding_folder_mode fs k s).effects = [] := by
  obtain ⟨code⟩ := k
  cases code <;> try rfl
  case char c =>
    by_cases h1 : c = 'l' <;> by_cases h2 : c = 'h' <;>
      simp [handle_adding_folder_mode, h1, h2]

/-! ### Concrete fixtures used by witnesses and counterexamples -/

def wBook1 : Book := ⟨"B1", "/lib/B1.epub"⟩

def wBook2 : Book := ⟨"B2", "/lib/B2.epub"⟩

def wBrowser : FileBrowser :=
  ⟨"/home", [⟨"A", "/home/A", true⟩, ⟨"b", "/home/b", true⟩], 0⟩

def wState : TuiState :=
  ⟨[wBook1, wBook2], 0, false, ["/lib"], UiMode.Normal, wBrowser⟩

def wAddState : TuiState :=
  { wState with mode := UiMode.AddingFolder }

def wEmptyState : TuiState :=
  ⟨[], 0, false, [], UiMode.Normal, wBrowser⟩

def wFs : DirFs := fun _ => none

def wRaws : List RawEntry :=
  [⟨"b", "/home/b", some true⟩, ⟨"A", "/home/A", some true⟩,
   ⟨"c", "/home/c", some true⟩, ⟨".git", "/home/.git", some true⟩,
   ⟨"f.txt", "/home/f.txt", some false⟩, ⟨"ghost", "/home/ghost", none⟩]

def wDirFs : DirFs := fun p => if p = "/home" then some wRaws else none

def wStaleBrowser : FileBrowser := ⟨"/home", [], 5⟩

def wWalk : Option (List WalkEntry) :=
  some [⟨"/lib", false⟩, ⟨"/lib/d.epub", false⟩]

/-! ### The claims -/

/-- C1: every sequence of up/down navigation events keeps both the
catalogue selection index and the browser cursor in bounds — strictly
below the list length when the list is non-empty, equal to 0 when it is
empty. -/
theorem C1_cursor_invariant (evs : List NavEvent) (s : TuiState) (b : FileBrowser)
    (hs : idxInv s.selected_index s.books.length)
    (hb : idxInv b.selected_index b.entries.length) :
    idxInv (evs.foldl (fun st e => stateNav e st) s).selected_index
      (evs.foldl (fun st e => stateNav e st) s).books.length
    ∧ idxInv (evs.foldl (fun br e => browserNav e br) b).selected_index
      (evs.foldl (fun br e => browserNav e br) b).entries.length :=
  ⟨navStateRun_inv evs s hs, navBrowserRun_inv evs b hb⟩

/-- C1 witness: three concrete navigation events on a concrete state
and browser, with the in-bounds hypotheses discharged by computation. -/
theorem C1_cursor_invariant_witness :
    idxInv wState.selected_index wState.books.length
    ∧ idxInv wBrowser.selected_index wBrowser.entries.length
    ∧ (idxInv (([NavEvent.down, NavEvent.down, NavEvent.up].foldl
          (fun st e => stateNav e st) wState).selected_index)
        (([NavEvent.down, NavEvent.down, NavEvent.up].foldl
          (fun st e => stateNav e st) wState).books.length)
      ∧ idxInv (([NavEvent.down, NavEvent.down, NavEvent.up].foldl
          (fun br e => browserNav e br) wBrowser).selected_index)
        (([NavEvent.down, NavEvent.down, NavEvent.up].foldl
          (fun br e => browserNav e br) wBrowser).entries.length)) :=
  ⟨by decide, by decide,
    C1_cursor_invariant [NavEvent.down, NavEvent.down, NavEvent.up]
      wState wBrowser (by decide) (by decide)⟩

/-- C2 counterexample: in Browsing (Normal) mode with a catalogue entry
selected, pressing confirm makes the handler call `book.open()` in
place and return NO action — the open request does not travel through
the Action channel, contradicting the claim. -/
theorem C2_counterexample :
    wState.mode = UiMode.Normal
    ∧ wState.selected_book = some wBook1
    ∧ (handle_key_event wFs ⟨KeyCode.enter⟩ wState).action = none
    ∧ (handle_key_event wFs ⟨KeyCode.enter⟩ wState).effects
        = [Effect.openBook wBook1] := by
  decide

/-- C2 amended: the only in-place side effect the router ever performs
(beyond the browser's reload) is the `book.open()` call of the
Browsing-mode confirm handler when an entry is selected; every Action
the router returns is the scan request `AddFolder` of the
SelectingLocation confirm, carrying the browser's current path. -/
theorem C2_action_channel (fs : DirFs) (k : KeyEvent) (s : TuiState) :
    ((handle_key_event fs k s).effects = []
      ∨ (s.mode = UiMode.Normal ∧ k.code = KeyCode.enter
          ∧ ∃ bk, s.selected_book = some bk
            ∧ (handle_key_event fs k s).effects = [Effect.openBook bk]))
    ∧ (∀ a, (handle_key_event fs k s).action = some a →
        s.mode = UiMode.AddingFolder ∧ k.code = KeyCode.enter
          ∧ a = AppAction.AddFolder s.browser.current_path) := by
  cases hm : s.mode
  · constructor
    · have h := handle_normal_mode_effects fs k s
      simp only [handle_key_event, hm]
      rcases h with h | ⟨hk, bk, hb, he⟩
      · left; exact h
      · right; exact ⟨by trivial, hk, bk, hb, he⟩
    · intro a ha
      simp only [handle_key_event, hm, handle_normal_mode_action] at ha
      exact absurd ha (by simp)
  · constructor
    · left
      simp only [handle_key_event, hm]
      exact handle_adding_folder_mode_effects fs k s
    · intro a ha
      simp only [handle_key_event, hm, handle_adding_folder_mode_action] at ha
      by_cases hk : k.code = KeyCode.enter
      · rw [if_pos hk] at ha
        exact ⟨rfl, hk, (Option.some_inj.mp ha).symm⟩
      · rw [if_neg hk] at ha
        exact absurd ha (by simp)

/-- C2 witness: the amended theorem applied at the SelectingLocation
confirm, where an action is actually returned. -/
theorem C2_action_channel_witness :
    (handle_key_event wFs ⟨KeyCode.enter⟩ wAddState).action
        = some (AppAction.AddFolder "/home")
    ∧ wAddState.mode = UiMode.AddingFolder
    ∧ AppAction.AddFolder "/home"
        = AppAction.AddFolder wAddState.browser.current_path := by
  refine ⟨by decide, ?_, ?_⟩
  · exact ((C2_action_channel wFs ⟨KeyCode.enter⟩ wAddState).2
      (AppAction.AddFolder "/home") (by decide)).1
  · have h := ((C2_action_channel wFs ⟨KeyCode.enter⟩ wAddState).2
      (AppAction.AddFolder "/home") (by decide)).2.2
    exact h ▸ rfl

/-- C3: after every reload the cursor is 0 and the current path is
unchanged; on a read failure the entries are empty (silently); on a
successful read the entries are a permutation of exactly those reported
children that are non-hidden directories, sorted ascending by ordinal
name comparison; and reloading an unchanged directory again reproduces
the same browser state. -/
theorem C3_reload (fs : DirFs) (b : FileBrowser) :
    (FileBrowser.load_entries fs b).selected_index = 0
    ∧ (FileBrowser.load_entries fs b).current_path = b.current_path
    ∧ (fs b.current_path = none → (FileBrowser.load_entries fs b).entries = [])
    ∧ (∀ raws, fs b.current_path = some raws →
        List.Perm (FileBrowser.load_entries fs b).entries (raws.filterMap keepEntry)
        ∧ (FileBrowser.load_entries fs b).entries.Pairwise nameLe
        ∧ (∀ e, e ∈ (FileBrowser.load_entries fs b).entries ↔
            ∃ r, r ∈ raws ∧ r.meta = some true ∧ isHidden r.name = false
              ∧ e = DirEntry.mk r.name r.path true))
    ∧ FileBrowser.load_entries fs (FileBrowser.load_entries fs b)
        = FileBrowser.load_entries fs b := by
  refine ⟨load_entries_selected_index fs b, load_entries_current_path fs b, ?_, ?_, ?_⟩
  · intro h
    simp [FileBrowser.load_entries, h]
  · intro raws hr
    simp only [FileBrowser.load_entries, hr]
    refine ⟨sortEntries_perm _, sortEntries_pairwise _, ?_⟩
    intro e
    rw [(sortEntries_perm _).mem_iff, List.mem_filterMap]
    constructor
    · rintro ⟨r, hrr, hk⟩
      have := (keepEntry_eq_some r e).mp hk
      exact ⟨r, hrr, this.1, this.2.1, this.2.2⟩
    · rintro ⟨r, hrr, h1, h2, h3⟩
      exact ⟨r, hrr, (keepEntry_eq_some r e).mpr ⟨h1, h2, h3⟩⟩
  · cases h : fs b.current_path <;>
      simp [FileBrowser.load_entries, h]

/-- C3 witness: reloading a concrete directory with children named
"b", "A", "c" (plus a hidden directory, a plain file and an entry whose
metadata call fails) from a browser whose cursor was 5 yields cursor 0
and entries ordered A, b, c. -/
theorem C3_reload_witness :
    (FileBrowser.load_entries wDirFs wStaleBrowser).selected_index = 0
    ∧ (FileBrowser.load_entries wDirFs wStaleBrowser).entries.map DirEntry.name
        = ["A", "b", "c"]
    ∧ List.Perm (FileBrowser.load_entries wDirFs wStaleBrowser).entries
        (wRaws.filterMap keepEntry)
    ∧ FileBrowser.load_entries wDirFs (FileBrowser.load_entries wDirFs wStaleBrowser)
        = FileBrowser.load_entries wDirFs wStaleBrowser := by
  have h := C3_reload wDirFs wStaleBrowser
  exact ⟨h.1, by decide, (h.2.2.2.1 wRaws (by decide)).1, h.2.2.2.2⟩

/-- C4: in SelectingLocation (AddingFolder) mode, confirm captures the
browser's current location, returns the mode to Browsing (Normal), and
emits exactly the scan request `AddFolder` for that location. -/
theorem C4_confirm_scan (fs : DirFs) (k : KeyEvent) (s : TuiState)
    (hm : s.mode = UiMode.AddingFolder) (hk : k.code = KeyCode.enter) :
    handle_key_event fs k s =
      ⟨{ s with mode := UiMode.Normal },
        some (AppAction.AddFolder s.browser.current_path), []⟩ := by
  simp [handle_key_event, hm, handle_adding_folder_mode, hk]

/-- C4 witness: the confirm transition at a concrete state. -/
theorem C4_confirm_scan_witness :
    handle_key_event wFs ⟨KeyCode.enter⟩ wAddState =
      ⟨{ wAddState with mode := UiMode.Normal },
        some (AppAction.AddFolder wAddState.browser.current_path), []⟩ :=
  C4_confirm_scan wFs ⟨KeyCode.enter⟩ wAddState (by decide) rfl

/-- C5: the popup round trip — from Browsing, the "add location" key
moves to SelectingLocation with the browser reloaded (cursor 0) and no
action; from SelectingLocation, cancel returns to Browsing with the
catalogue untouched and no action. -/
theorem C5_popup_round_trip (fs : DirFs) (s t : TuiState)
    (hm : s.mode = UiMode.Normal) (ht : t.mode = UiMode.AddingFolder) :
    ((handle_key_event fs ⟨KeyCode.char 'a'⟩ s).state.mode = UiMode.AddingFolder
      ∧ (handle_key_event fs ⟨KeyCode.char 'a'⟩ s).state.browser.selected_index = 0
      ∧ (handle_key_event fs ⟨KeyCode.char 'a'⟩ s).action = none)
    ∧ ((handle_key_event fs ⟨KeyCode.esc⟩ t).state.mode = UiMode.Normal
      ∧ (handle_key_event fs ⟨KeyCode.esc⟩ t).state.books = t.books
      ∧ (handle_key_event fs ⟨KeyCode.esc⟩ t).action = none) := by
  constructor
  · simp [handle_key_event, hm, handle_normal_mode, load_entries_selected_index]
  · simp [handle_key_event, ht, handle_adding_folder_mode]

/-- C5 witness: the round trip at concrete states over a concrete
directory oracle. -/
theorem C5_popup_round_trip_witness :
    ((handle_key_event wDirFs ⟨KeyCode.char 'a'⟩ wState).state.mode = UiMode.AddingFolder
      ∧ (handle_key_event wDirFs ⟨KeyCode.char 'a'⟩ wState).state.browser.selected_index = 0
      ∧ (handle_key_event wDirFs ⟨KeyCode.char 'a'⟩ wState).action = none)
    ∧ ((handle_key_event wDirFs ⟨KeyCode.esc⟩ wAddState).state.mode = UiMode.Normal
      ∧ (handle_key_event wDirFs ⟨KeyCode.esc⟩ wAddState).state.books = wAddState.books
      ∧ (handle_key_event wDirFs ⟨KeyCode.esc⟩ wAddState).action = none) :=
  C5_popup_round_trip wDirFs wState wAddState (by decide) (by decide)

/-- C6: the quit flag is monotonic — whichever mode is active and
whichever key arrives, a handler never resets `should_quit` from true
to false. -/
theorem C6_quit_monotonic (fs : DirFs) (k : KeyEvent) (s : TuiState)
    (h : s.should_quit = true) :
    (handle_key_event fs k s).state.should_quit = true := by
  obtain ⟨code⟩ := k
  cases hm : s.mode <;> cases code <;>
    simp only [handle_key_event, hm, handle_normal_mode, handle_adding_folder_mode] <;>
    first
      | exact h
      | (split_ifs <;> first | rfl | exact h)
      | (cases s.selected_book <;> exact h)

/-- C6 witness: a concrete quitting state is still quitting after an
arbitrary key. -/
theorem C6_quit_monotonic_witness :
    ({ wState with should_quit := true } : TuiState).should_quit = true
    ∧ (handle_key_event wDirFs ⟨KeyCode.down⟩
        { wState with should_quit := true }).state.should_quit = true :=
  ⟨by decide, C6_quit_monotonic wDirFs ⟨KeyCode.down⟩
    { wState with should_quit := true } (by decide)⟩

/-- C7: with an empty catalogue, `selected_book` is none and confirm in
Browsing mode leaves the state untouched, producing no action and no
effect. -/
theorem C7_empty_catalogue (fs : DirFs) (k : KeyEvent) (s : TuiState)
    (hb : s.books = []) (hm : s.mode = UiMode.Normal) (hk : k.code = KeyCode.enter) :
    s.selected_book = none ∧ handle_key_event fs k s = ⟨s, none, []⟩ := by
  have hsel : s.selected_book = none := by
    unfold TuiState.selected_book
    rw [hb]
    simp
  refine ⟨hsel, ?_⟩
  simp [handle_key_event, hm, handle_normal_mode, hk, hsel]

/-- C7 witness: the empty-catalogue no-op at a concrete state. -/
theorem C7_empty_catalogue_witness :
    wEmptyState.selected_book = none
    ∧ handle_key_event wFs ⟨KeyCode.enter⟩ wEmptyState = ⟨wEmptyState, none, []⟩ :=
  C7_empty_catalogue wFs ⟨KeyCode.enter⟩ wEmptyState rfl rfl rfl

/-- C8 counterexample: a walk in which nothing is a regular file still
produces a catalogue entry — the scanner keeps any walked entry whose
path has extension "epub", directories included, so it does not return
exactly the FILES with that extension. -/
theorem C8_counterexample :
    ([WalkEntry.mk "/lib" false, WalkEntry.mk "/lib/d.epub" false].all
        (fun e => !e.is_file)) = true
    ∧ wWalk = some [WalkEntry.mk "/lib" false, WalkEntry.mk "/lib/d.epub" false]
    ∧ scan_epubs wWalk = [Book.mk "d.epub" "/lib/d.epub"]
    ∧ scanSpecFilesOnly wWalk = [] := by
  decide

/-- C8 amended: `scan_epubs` returns the empty list when the location
does not exist or is not a directory (and never raises, being a total
function); on a readable directory it returns exactly the walked
entries — regular files and directories alike — whose extension
case-insensitively equals "epub". -/
theorem C8_scan (walk : Option (List WalkEntry)) :
    (walk = none → scan_epubs walk = [])
    ∧ (∀ l, walk = some l →
        ∀ b, b ∈ scan_epubs walk ↔
          ∃ e, e ∈ l ∧ hasEpubExt e.path = true ∧ b = bookOfEntry e) := by
  constructor
  · rintro rfl
    rfl
  · rintro l rfl b
    simp only [scan_epubs, List.mem_map, List.mem_filter]
    constructor
    · rintro ⟨e, ⟨he, hx⟩, rfl⟩
      exact ⟨e, he, hx, rfl⟩
    · rintro ⟨e, he, hx, rfl⟩
      exact ⟨e, ⟨he, hx⟩, rfl⟩

/-- C8 witness: the amended theorem applied at a missing location. -/
theorem C8_scan_witness : scan_epubs none = [] :=
  (C8_scan none).1 rfl

/-- C9: on a successful stat the metadata block contains the title, the
path and the size in KB; on a failed stat it is the fixed sentinel
string, not an exception (the formatter is a total function). -/
theorem C9_metadata (b : Book) (n : Nat) :
    List.IsInfix b.name.data (b.get_metadata (some n)).data
    ∧ List.IsInfix b.path.data (b.get_metadata (some n)).data
    ∧ List.IsInfix (toString (n / 1024)).data (b.get_metadata (some n)).data
    ∧ b.get_metadata none = "Error reading metadata" := by
  refine ⟨⟨"Title: ".data,
      ("\n\nPath: " ++ b.path ++ "\n\nSize: " ++ toString (n / 1024) ++ " KB").data, ?_⟩,
    ⟨("Title: " ++ b.name ++ "\n\nPath: ").data,
      ("\n\nSize: " ++ toString (n / 1024) ++ " KB").data, ?_⟩,
    ⟨("Title: " ++ b.name ++ "\n\nPath: " ++ b.path ++ "\n\nSize: ").data,
      (" KB" : String).data, ?_⟩, rfl⟩ <;>
  simp [Book.get_metadata, String.data_append]

/-- C10: the router returns an action exactly when the mode is
AddingFolder and the key is Enter, and that action is the scan request
for the browser's current path; every other mode/key combination
returns none. -/
theorem C10_action_characterisation (fs : DirFs) (k : KeyEvent) (s : TuiState) :
    (handle_key_event fs k s).action =
      if s.mode = UiMode.AddingFolder ∧ k.code = KeyCode.enter then
        some (AppAction.AddFolder s.browser.current_path)
      else none := by
  cases hm : s.mode
  · simp only [handle_key_event, hm]
    rw [handle_normal_mode_action, if_neg (by simp)]
  · simp only [handle_key_event, hm]
    rw [handle_adding_folder_mode_action]
    by_cases hk : k.code = KeyCode.enter <;> simp [hk]

end Funkhunt
